import Mathlib

/-!
Verification of the RustyWallet expense-ledger contract
(src/contracts/hello-world/src/lib.rs) against its specification.

The contract is shallowly embedded: soroban storage becomes an explicit
`Storage` record mapping keys to optional values, `Address` becomes `Nat`,
`u64`/`u128` become `Nat` with explicit saturation at `2^64 - 1` / `2^128 - 1`,
soroban `Vec<u64>` becomes `List Nat`, and the `.expect(...)` panics become
`Option` results (`none` is the aborted call).  The ledger timestamp is a
parameter of each operation.
-/

namespace RustyWallet

def U64MAX : Nat := 2 ^ 64 - 1

def U128MAX : Nat := 2 ^ 128 - 1

/-- `u64::saturating_add` on values already below `2^64`. -/
def satAdd64 (a b : Nat) : Nat := min (a + b) U64MAX

/-- `u128::saturating_add` on values already below `2^128`. -/
def satAdd128 (a b : Nat) : Nat := min (a + b) U128MAX

/-- The `Expense` record stored on-chain (struct `Expense` in lib.rs). -/
structure Expense where
  id : Nat
  owner : Nat
  ts : Nat
  day : Nat
  week : Nat
  category : String
  amount : Nat
  note : String
deriving DecidableEq, Repr

/-- The contract's instance storage, split along the three constructors of
the `ExpenseKey` enum: `Count(Address)`, `Record(Address, u64)`,
`OwnerIndex(Address)`.  Each component maps the key's arguments to the
optionally-present stored value. -/
structure Storage where
  count : Nat → Option Nat
  record : Nat → Nat → Option Expense
  ownerIndex : Nat → Option (List Nat)

def emptyStorage : Storage :=
  { count := fun _ => none
    record := fun _ _ => none
    ownerIndex := fun _ => none }

def Storage.setCount (s : Storage) (o v : Nat) : Storage :=
  { s with count := fun q => if q = o then some v else s.count q }

def Storage.setRecord (s : Storage) (o i : Nat) (e : Expense) : Storage :=
  { s with record := fun q j => if q = o ∧ j = i then some e else s.record q j }

def Storage.setOwnerIndex (s : Storage) (o : Nat) (l : List Nat) : Storage :=
  { s with ownerIndex := fun q => if q = o then some l else s.ownerIndex q }

/-- `add_expense(env, caller, category, amount, note) -> u64`.  Reads and
saturating-bumps `Count(caller)`, stores the new `Expense` under
`Record(caller, count)`, appends the id to `OwnerIndex(caller)`, and returns
the id.  `ts` is `env.ledger().timestamp()`. -/
def add_expense (ts caller : Nat) (category : String) (amount : Nat)
    (note : String) (s : Storage) : Nat × Storage :=
  let count := (s.count caller).getD 0
  let count := satAdd64 count 1
  let s := s.setCount caller count
  let day := ts / 86400
  let week := ts / 604800
  let exp : Expense :=
    { id := count, owner := caller, ts := ts, day := day, week := week
      category := category, amount := amount, note := note }
  let s := s.setRecord caller count exp
  let idx := (s.ownerIndex caller).getD []
  let s := s.setOwnerIndex caller (idx ++ [count])
  (count, s)

/-- `view_expense(env, owner, id) -> Expense`; `none` models the
`expect("expense not found")` panic. -/
def view_expense (s : Storage) (owner id : Nat) : Option Expense :=
  s.record owner id

/-- `list_my_expense_ids(env, owner) -> Vec<u64>`. -/
def list_my_expense_ids (s : Storage) (owner : Nat) : List Nat :=
  (s.ownerIndex owner).getD []

/-- `expenses_count(env, owner) -> u64`. -/
def expenses_count (s : Storage) (owner : Nat) : Nat :=
  (s.count owner).getD 0

/-- The `while i < len` summation loop shared by `daily_total` (with the
day bucket) and `weekly_total` (with the week bucket): walks the index ids
in order, loads each record (`none` models the `expect("expense not found")`
panic) and saturating-adds `amount` whenever the stored bucket matches. -/
def sumLoop (s : Storage) (owner bucket : Nat) (proj : Expense → Nat) :
    List Nat → Nat → Option Nat
  | [], sum => some sum
  | id :: rest, sum =>
    match s.record owner id with
    | none => none
    | some e =>
      sumLoop s owner bucket proj rest
        (if proj e = bucket then satAdd128 sum e.amount else sum)

/-- `daily_total(env, owner) -> u128`. -/
def daily_total (ts : Nat) (s : Storage) (owner : Nat) : Option Nat :=
  let today := ts / 86400
  let ids := (s.ownerIndex owner).getD []
  sumLoop s owner today (fun e => e.day) ids 0

/-- `weekly_total(env, owner) -> u128`. -/
def weekly_total (ts : Nat) (s : Storage) (owner : Nat) : Option Nat :=
  let week := ts / 604800
  let ids := (s.ownerIndex owner).getD []
  sumLoop s owner week (fun e => e.week) ids 0

/-- The tombstone written by `remove_expense`: `day`/`week` zeroed,
`category = "DELETED"`, `amount = 0`, `note = ""`, `ts` the deletion time. -/
def tombstone (ts caller id : Nat) : Expense :=
  { id := id, owner := caller, ts := ts, day := 0, week := 0
    category := "DELETED", amount := 0, note := "" }

/-- The index-rebuild loop of `remove_expense`: pushes every id different
from `id` onto `out`, preserving order. -/
def rebuildLoop (id : Nat) : List Nat → List Nat → List Nat
  | [], out => out
  | nid :: rest, out =>
    rebuildLoop id rest (if nid ≠ id then out ++ [nid] else out)

/-- `remove_expense(env, caller, id)`.  Requires `Record(caller, id)` to be
present (`none` models the `expect("expense not found")` panic), overwrites
it with the tombstone, then rewrites `OwnerIndex(caller)` with `id` filtered
out. -/
def remove_expense (ts : Nat) (s : Storage) (caller id : Nat) :
    Option Storage :=
  match s.record caller id with
  | none => none
  | some _ =>
    let s := s.setRecord caller id (tombstone ts caller id)
    let ids := (s.ownerIndex caller).getD []
    let out := rebuildLoop id ids []
    some (s.setOwnerIndex caller out)

/-- One public call of the contract, together with the ledger timestamp the
host supplies for it. -/
inductive Op where
  | add (ts caller : Nat) (category : String) (amount : Nat) (note : String)
  | remove (ts caller id : Nat)
  | view (owner id : Nat)
  | listIds (owner : Nat)
  | countOf (owner : Nat)
  | daily (ts owner : Nat)
  | weekly (ts owner : Nat)
deriving Repr

/-- Storage effect of one public call.  Read-only calls leave the state
unchanged; a failing `remove_expense` aborts (its writes are rolled back by
the host), leaving the state unchanged as well. -/
def step (s : Storage) : Op → Storage
  | Op.add ts caller category amount note =>
    (add_expense ts caller category amount note s).2
  | Op.remove ts caller id => (remove_expense ts s caller id).getD s
  | _ => s

/-- The storage state reached by running a sequence of public calls from
empty storage. -/
def reach (ops : List Op) : Storage :=
  ops.foldl step emptyStorage

/-- Number of `add_expense` calls made by owner `o` in a call sequence. -/
def numAdds (o : Nat) : List Op → Nat
  | [] => 0
  | Op.add _ caller _ _ _ :: rest => (if caller = o then 1 else 0) + numAdds o rest
  | _ :: rest => numAdds o rest

/-- The ids returned to owner `o` by its successive `add_expense` calls while
running a call sequence from state `s`, in call order. -/
def traceFrom (o : Nat) : List Op → Storage → List Nat
  | [], _ => []
  | Op.add ts caller category amount note :: rest, s =>
    let r := add_expense ts caller category amount note s
    if caller = o then r.1 :: traceFrom o rest r.2 else traceFrom o rest r.2
  | op :: rest, s => traceFrom o rest (step s op)

/-- The ids returned to owner `o` by its `add_expense` calls in a call
sequence run from empty storage. -/
def addTrace (o : Nat) (ops : List Op) : List Nat :=
  traceFrom o ops emptyStorage

/-- The id sequence produced by `n` saturating counter bumps starting from
counter value `c`. -/
def expectedIds (c : Nat) : Nat → List Nat
  | 0 => []
  | n + 1 => satAdd64 c 1 :: expectedIds (satAdd64 c 1) n

theorem add_expense_fst (ts caller : Nat) (category : String) (amount : Nat)
    (note : String) (s : Storage) :
    (add_expense ts caller category amount note s).1
      = satAdd64 ((s.count caller).getD 0) 1 := rfl

theorem count_add_expense (ts caller : Nat) (category : String) (amount : Nat)
    (note : String) (s : Storage) (o : Nat) :
    (add_expense ts caller category amount note s).2.count o
      = if o = caller then some (satAdd64 ((s.count caller).getD 0) 1)
        else s.count o := by
  simp [add_expense, Storage.setCount, Storage.setRecord, Storage.setOwnerIndex]

theorem count_remove_expense (ts : Nat) (s : Storage) (caller id o : Nat) :
    ((remove_expense ts s caller id).getD s).count o = s.count o := by
  unfold remove_expense
  cases s.record caller id <;>
    simp [Storage.setRecord, Storage.setOwnerIndex]

theorem count_step (s : Storage) (op : Op) (o : Nat) :
    (step s op).count o
      = match op with
        | Op.add _ caller _ _ _ =>
          if o = caller then some (satAdd64 ((s.count caller).getD 0) 1)
          else s.count o
        | _ => s.count o := by
  cases op <;>
    simp [step, count_add_expense, count_remove_expense]

theorem traceFrom_eq (o : Nat) (ops : List Op) :
    ∀ s : Storage, traceFrom o ops s
      = expectedIds (expenses_count s o) (numAdds o ops) := by
  induction ops with
  | nil => intro s; rfl
  | cons op rest ih =>
    intro s
    cases op with
    | add ts caller category amount note =>
      by_cases h : caller = o
      · subst h
        have hc : expenses_count (add_expense ts caller category amount note s).2
            caller = satAdd64 (expenses_count s caller) 1 := by
          simp [expenses_count, count_add_expense]
        have h1 : traceFrom caller (Op.add ts caller category amount note :: rest) s
            = (add_expense ts caller category amount note s).1
              :: traceFrom caller rest (add_expense ts caller category amount note s).2 := by
          simp [traceFrom]
        have h2 : numAdds caller (Op.add ts caller category amount note :: rest)
            = numAdds caller rest + 1 := by
          simp [numAdds]
          omega
        rw [h1, h2, ih, hc, add_expense_fst, expectedIds]
        rfl
      · have hc : expenses_count (add_expense ts caller category amount note s).2
            o = expenses_count s o := by
          simp [expenses_count, count_add_expense, if_neg (Ne.symm h)]
        have h1 : traceFrom o (Op.add ts caller category amount note :: rest) s
            = traceFrom o rest (add_expense ts caller category amount note s).2 := by
          simp [traceFrom, h]
        have h2 : numAdds o (Op.add ts caller category amount note :: rest)
            = numAdds o rest := by
          simp [numAdds, h]
        rw [h1, h2, ih, hc]
    | remove ts caller id =>
      have hc : expenses_count (step s (Op.remove ts caller id)) o
          = expenses_count s o := by
        simp [expenses_count, step, count_remove_expense]
      simp only [traceFrom, numAdds, ih]
      rw [hc]
    | view owner id => simp only [traceFrom, numAdds, ih]; rfl
    | listIds owner => simp only [traceFrom, numAdds, ih]; rfl
    | countOf owner => simp only [traceFrom, numAdds, ih]; rfl
    | daily ts owner => simp only [traceFrom, numAdds, ih]; rfl
    | weekly ts owner => simp only [traceFrom, numAdds, ih]; rfl

theorem addTrace_eq (o : Nat) (ops : List Op) :
    addTrace o ops = expectedIds 0 (numAdds o ops) :=
  traceFrom_eq o ops emptyStorage

theorem satAdd64_le (a b : Nat) : satAdd64 a b ≤ U64MAX :=
  min_le_right _ _

theorem expectedIds_closed (n : Nat) :
    ∀ c : Nat, c ≤ U64MAX →
      expectedIds c n = (List.range n).map (fun k => min (c + k + 1) U64MAX) := by
  induction n with
  | zero => intro c _; rfl
  | succ n ih =>
    intro c hc
    rw [expectedIds, ih (satAdd64 c 1) (satAdd64_le c 1),
      List.range_succ_eq_map, List.map_cons, List.map_map]
    refine List.cons_eq_cons.mpr ⟨?_, ?_⟩
    · simp [satAdd64]
    · refine List.map_congr_left ?_
      intro k _
      simp only [Function.comp, satAdd64, U64MAX] at *
      omega

theorem numAdds_replicate (m : Nat) :
    numAdds 0 (List.replicate m (Op.add 0 0 "c" 1 "n")) = m := by
  induction m with
  | zero => rfl
  | succ m ih =>
    rw [List.replicate_succ]
    simp [numAdds, ih]
    omega

/-- C1, counterexample: in the run consisting of `2^64` successive
`add_expense` calls by owner `0` from empty storage, the returned ids are
not the sequence `1, 2, 3, …`: the counter saturates at `u64::MAX`, so the
last call returns `u64::MAX` again instead of `2^64`. -/
theorem C1_counterexample :
    addTrace 0 (List.replicate (2 ^ 64) (Op.add 0 0 "c" 1 "n"))
      ≠ (List.range (2 ^ 64)).map (fun k => k + 1) := by
  rw [addTrace_eq, numAdds_replicate,
    expectedIds_closed (2 ^ 64) 0 (Nat.zero_le _)]
  intro hEq
  have e64 : (2 : Nat) ^ 64 = 18446744073709551616 := by norm_num
  have hlt : 2 ^ 64 - 1 < 2 ^ 64 := by omega
  have h2 := congrArg (fun l => l[2 ^ 64 - 1]?) hEq
  simp only [List.getElem?_map, List.getElem?_range hlt, Option.map_some',
    Option.some.injEq] at h2
  rw [e64] at h2
  have eMax : U64MAX = 18446744073709551615 := by norm_num [U64MAX]
  rw [eMax] at h2
  omega

/-- C1 (amended): for every sequence of public calls run from empty storage
in which owner `o` makes at most `u64::MAX` `add_expense` calls, the ids
returned to `o` are exactly `1, 2, 3, …` in call order — strictly increasing
with no gaps and no reuse — regardless of interleaved `remove_expense` calls
or calls by other owners.  (Beyond `u64::MAX` adds the counter saturates and
the id `u64::MAX` repeats.) -/
theorem C1_ids_sequential (o : Nat) (ops : List Op)
    (h : numAdds o ops ≤ U64MAX) :
    addTrace o ops = (List.range (numAdds o ops)).map (fun k => k + 1) := by
  rw [addTrace_eq, expectedIds_closed (numAdds o ops) 0 (Nat.zero_le _)]
  refine List.map_congr_left ?_
  intro k hk
  rw [List.mem_range] at hk
  omega

/-- C1, witness: a concrete interleaved run (two owners, one removal) in
which owner `0` receives ids `1, 2, 3`. -/
theorem C1_ids_sequential_witness :
    numAdds 0 [Op.add 10 0 "food" 5 "a", Op.add 20 1 "gas" 7 "b",
        Op.add 30 0 "rent" 9 "c", Op.remove 40 0 1, Op.add 50 0 "tea" 2 "d"]
      ≤ U64MAX ∧
    addTrace 0 [Op.add 10 0 "food" 5 "a", Op.add 20 1 "gas" 7 "b",
        Op.add 30 0 "rent" 9 "c", Op.remove 40 0 1, Op.add 50 0 "tea" 2 "d"]
      = (List.range (numAdds 0 [Op.add 10 0 "food" 5 "a",
          Op.add 20 1 "gas" 7 "b", Op.add 30 0 "rent" 9 "c", Op.remove 40 0 1,
          Op.add 50 0 "tea" 2 "d"])).map (fun k => k + 1) :=
  ⟨by decide, C1_ids_sequential 0 _ (by decide)⟩

/-- Spec-level bucketed sum: the plain (non-saturating) sum of the amounts
of the records designated by `ids` whose stored bucket equals `bucket`;
absent records and non-matching buckets contribute nothing. -/
def bucketSum (s : Storage) (owner bucket : Nat) (proj : Expense → Nat)
    (ids : List Nat) : Nat :=
  (ids.map (fun id =>
    match s.record owner id with
    | some e => if proj e = bucket then e.amount else 0
    | none => 0)).sum

theorem sumLoop_eq_min (s : Storage) (owner bucket : Nat)
    (proj : Expense → Nat) :
    ∀ (ids : List Nat) (acc : Nat), acc ≤ U128MAX →
      (∀ id ∈ ids, (s.record owner id).isSome) →
      sumLoop s owner bucket proj ids acc
        = some (min (acc + bucketSum s owner bucket proj ids) U128MAX) := by
  intro ids
  induction ids with
  | nil =>
    intro acc hacc _
    simp only [sumLoop, bucketSum, List.map_nil, List.sum_nil]
    exact congrArg some (by omega)
  | cons id rest ih =>
    intro acc hacc hall
    have hid : (s.record owner id).isSome := hall id (by simp)
    obtain ⟨e, he⟩ := Option.isSome_iff_exists.mp hid
    have hrest : ∀ i ∈ rest, (s.record owner i).isSome :=
      fun i hi => hall i (List.mem_cons_of_mem _ hi)
    simp only [sumLoop, he]
    by_cases hb : proj e = bucket
    · rw [if_pos hb, ih (satAdd128 acc e.amount) (min_le_right _ _) hrest]
      have hbs : bucketSum s owner bucket proj (id :: rest)
          = e.amount + bucketSum s owner bucket proj rest := by
        simp [bucketSum, he, hb]
      rw [hbs]
      exact congrArg some (by simp only [satAdd128]; omega)
    · rw [if_neg hb, ih acc hacc hrest]
      have hbs : bucketSum s owner bucket proj (id :: rest)
          = bucketSum s owner bucket proj rest := by
        simp [bucketSum, he, hb]
      rw [hbs]

/-- C2: whenever every id in `OwnerIndex[owner]` has a stored record (which
holds in every reachable state), `daily_total` returns exactly the
saturating u128 sum of the amounts of those indexed records whose stored
`day` equals the current ledger timestamp divided by 86400; ids not in the
index contribute nothing, and an absent index yields the empty sum. -/
theorem C2_daily_total_sum (ts : Nat) (s : Storage) (owner : Nat)
    (h : ∀ id ∈ (s.ownerIndex owner).getD [], (s.record owner id).isSome) :
    daily_total ts s owner
      = some (min (bucketSum s owner (ts / 86400) (fun e => e.day)
          ((s.ownerIndex owner).getD [])) U128MAX) := by
  unfold daily_total
  rw [sumLoop_eq_min s owner (ts / 86400) (fun e => e.day)
    ((s.ownerIndex owner).getD []) 0 (Nat.zero_le _) h]
  exact congrArg some (by omega)

/-- C2, witness: two same-day expenses of 5 and 7 give a daily total of 12. -/
theorem C2_daily_total_sum_witness :
    (∀ id ∈ ((reach [Op.add 100 0 "a" 5 "x", Op.add 200 0 "b" 7 "y"]).ownerIndex
        0).getD [],
      ((reach [Op.add 100 0 "a" 5 "x", Op.add 200 0 "b" 7 "y"]).record 0
          id).isSome) ∧
    daily_total 300 (reach [Op.add 100 0 "a" 5 "x", Op.add 200 0 "b" 7 "y"]) 0
      = some (min (bucketSum
          (reach [Op.add 100 0 "a" 5 "x", Op.add 200 0 "b" 7 "y"]) 0 (300 / 86400)
          (fun e => e.day)
          (((reach [Op.add 100 0 "a" 5 "x", Op.add 200 0 "b" 7 "y"]).ownerIndex
              0).getD [])) U128MAX) :=
  ⟨by decide,
   C2_daily_total_sum 300 (reach [Op.add 100 0 "a" 5 "x", Op.add 200 0 "b" 7 "y"])
     0 (by decide)⟩

/-- The host's dispatch of `add_expense` on behalf of the transaction's
verified principal `invoker`.  The body of `add_expense` contains no
`require_auth` call, so it is applied unchanged, whoever invokes it. -/
def add_expense_invoked (invoker ts caller : Nat) (category : String)
    (amount : Nat) (note : String) (s : Storage) : Nat × Storage :=
  add_expense ts caller category amount note s

/-- The host's dispatch of `remove_expense` on behalf of the transaction's
verified principal `invoker`.  The body of `remove_expense` contains no
`require_auth` call, so it is applied unchanged, whoever invokes it. -/
def remove_expense_invoked (invoker ts : Nat) (s : Storage)
    (caller id : Nat) : Option Storage :=
  remove_expense ts s caller id

/-- C3: neither `add_expense` nor `remove_expense` performs any
authorization check: their result and storage effects are identical for any
two invoking principals, depending only on the explicit arguments, the
storage state and the ledger timestamp — so any principal can create or
tombstone expenses under any owner address. -/
theorem C3_no_authorization (inv inv' ts caller id : Nat) (category : String)
    (amount : Nat) (note : String) (s : Storage) :
    add_expense_invoked inv ts caller category amount note s
        = add_expense_invoked inv' ts caller category amount note s ∧
    remove_expense_invoked inv ts s caller id
        = remove_expense_invoked inv' ts s caller id :=
  ⟨rfl, rfl⟩

/-- C4: when `Record[caller,id]` is present, `remove_expense` succeeds and
leaves the key present, holding the tombstone with `category = "DELETED"`,
`amount = 0`, `day = 0`, `week = 0`, `note = ""`, the same owner and id, and
`ts` equal to the deletion-time ledger timestamp; a subsequent
`view_expense` returns this tombstone as a normal record. -/
theorem C4_tombstone_record (ts : Nat) (s : Storage) (caller id : Nat)
    (h : (s.record caller id).isSome) :
    (remove_expense ts s caller id).isSome ∧
    ((remove_expense ts s caller id).getD s).record caller id
        = some { id := id, owner := caller, ts := ts, day := 0, week := 0,
                 category := "DELETED", amount := 0, note := "" } ∧
    view_expense ((remove_expense ts s caller id).getD s) caller id
        = some { id := id, owner := caller, ts := ts, day := 0, week := 0,
                 category := "DELETED", amount := 0, note := "" } := by
  obtain ⟨e, he⟩ := Option.isSome_iff_exists.mp h
  unfold remove_expense
  rw [he]
  refine ⟨rfl, ?_, ?_⟩ <;>
    simp [view_expense, Storage.setRecord, Storage.setOwnerIndex, tombstone]

/-- C4, witness: removing the only expense of a one-expense owner at time 99
stores the concrete tombstone. -/
theorem C4_tombstone_record_witness :
    ((reach [Op.add 5 0 "food" 7 "x"]).record 0 1).isSome ∧
    (remove_expense 99 (reach [Op.add 5 0 "food" 7 "x"]) 0 1).isSome ∧
    ((remove_expense 99 (reach [Op.add 5 0 "food" 7 "x"]) 0 1).getD
        (reach [Op.add 5 0 "food" 7 "x"])).record 0 1
      = some { id := 1, owner := 0, ts := 99, day := 0, week := 0,
               category := "DELETED", amount := 0, note := "" } :=
  ⟨by decide,
   (C4_tombstone_record 99 (reach [Op.add 5 0 "food" 7 "x"]) 0 1 (by decide)).1,
   (C4_tombstone_record 99 (reach [Op.add 5 0 "food" 7 "x"]) 0 1 (by decide)).2.1⟩

theorem rebuildLoop_eq_filter (id : Nat) :
    ∀ l out : List Nat,
      rebuildLoop id l out = out ++ l.filter (fun nid => nid != id) := by
  intro l
  induction l with
  | nil => intro out; simp [rebuildLoop]
  | cons nid rest ih =>
    intro out
    simp only [rebuildLoop]
    by_cases h : nid = id
    · rw [if_neg (by simp [h]), ih, List.filter_cons]
      simp [h]
    · rw [if_pos h, ih, List.filter_cons]
      simp [h]

/-- C5: a successful `remove_expense(caller, id)` rewrites
`OwnerIndex[caller]` to the previous index with every occurrence of `id`
filtered out, preserving the relative order of the remaining ids, and leaves
every other owner's index untouched. -/
theorem C5_index_filtered (ts : Nat) (s : Storage) (caller id : Nat)
    (h : (s.record caller id).isSome) :
    ((remove_expense ts s caller id).getD s).ownerIndex caller
        = some (((s.ownerIndex caller).getD []).filter (fun nid => nid != id)) ∧
    ∀ o, o ≠ caller →
      ((remove_expense ts s caller id).getD s).ownerIndex o
        = s.ownerIndex o := by
  obtain ⟨e, he⟩ := Option.isSome_iff_exists.mp h
  unfold remove_expense
  rw [he]
  constructor
  · simp [Storage.setOwnerIndex, Storage.setRecord, rebuildLoop_eq_filter]
  · intro o ho
    simp [Storage.setOwnerIndex, Storage.setRecord, if_neg ho]

/-- C5, witness: removing id 1 from an owner with ids `[1, 2]` leaves
`[2]` while another owner's index is untouched. -/
theorem C5_index_filtered_witness :
    ((reach [Op.add 5 0 "a" 1 "x", Op.add 6 0 "b" 2 "y",
        Op.add 7 3 "c" 4 "z"]).record 0 1).isSome ∧
    ((remove_expense 50 (reach [Op.add 5 0 "a" 1 "x", Op.add 6 0 "b" 2 "y",
          Op.add 7 3 "c" 4 "z"]) 0 1).getD
        (reach [Op.add 5 0 "a" 1 "x", Op.add 6 0 "b" 2 "y",
          Op.add 7 3 "c" 4 "z"])).ownerIndex 0
      = some ((((reach [Op.add 5 0 "a" 1 "x", Op.add 6 0 "b" 2 "y",
            Op.add 7 3 "c" 4 "z"]).ownerIndex 0).getD []).filter
          (fun nid => nid != 1)) :=
  ⟨by decide,
   (C5_index_filtered 50 (reach [Op.add 5 0 "a" 1 "x", Op.add 6 0 "b" 2 "y",
      Op.add 7 3 "c" 4 "z"]) 0 1 (by decide)).1⟩

theorem remove_expense_eq (ts : Nat) (s : Storage) (caller id : Nat)
    (e : Expense) (he : s.record caller id = some e) :
    remove_expense ts s caller id
      = some ((s.setRecord caller id (tombstone ts caller id)).setOwnerIndex
          caller (((s.ownerIndex caller).getD []).filter
            (fun nid => nid != id))) := by
  unfold remove_expense
  rw [he]
  simp [rebuildLoop_eq_filter, Storage.setRecord]

theorem filter_bne_idem (id : Nat) (l : List Nat) :
    (l.filter (fun nid => nid != id)).filter (fun nid => nid != id)
      = l.filter (fun nid => nid != id) := by
  rw [List.filter_filter]
  simp only [Bool.and_self]

/-- C6, counterexample: add one expense, remove it, then remove it again —
the second `remove_expense` also succeeds (the tombstoned record is still
present, so the existence check passes), contradicting the claim that it
fails with `NotFound`. -/
theorem C6_counterexample :
    (remove_expense 100 (add_expense 0 0 "food" 5 "q" emptyStorage).2
        0 1).isSome ∧
    (remove_expense 200
        ((remove_expense 100 (add_expense 0 0 "food" 5 "q" emptyStorage).2
            0 1).getD emptyStorage) 0 1).isSome := by
  decide

/-- C6 (amended): after `remove_expense(caller, id)` has succeeded once, a
second `remove_expense(caller, id)` also succeeds, because the tombstoned
record persists in storage and passes the existence check; the second call
re-tombstones the record with the new ledger timestamp and leaves the
owner's index unchanged (the id was already purged by the first call). -/
theorem C6_second_remove_succeeds (ts ts' : Nat) (s : Storage)
    (caller id : Nat) (h : (s.record caller id).isSome) :
    (remove_expense ts'
        ((remove_expense ts s caller id).getD s) caller id).isSome ∧
    ((remove_expense ts' ((remove_expense ts s caller id).getD s)
          caller id).getD ((remove_expense ts s caller id).getD s)).record
        caller id = some (tombstone ts' caller id) ∧
    ((remove_expense ts' ((remove_expense ts s caller id).getD s)
          caller id).getD ((remove_expense ts s caller id).getD s)).ownerIndex
        caller = ((remove_expense ts s caller id).getD s).ownerIndex
        caller := by
  obtain ⟨e, he⟩ := Option.isSome_iff_exists.mp h
  rw [remove_expense_eq ts s caller id e he]
  simp only [Option.getD_some]
  have hrec : ((s.setRecord caller id (tombstone ts caller id)).setOwnerIndex
      caller (((s.ownerIndex caller).getD []).filter
        (fun nid => nid != id))).record caller id
      = some (tombstone ts caller id) := by
    simp [Storage.setRecord, Storage.setOwnerIndex]
  rw [remove_expense_eq ts' _ caller id (tombstone ts caller id) hrec]
  simp only [Option.getD_some, Option.isSome_some, true_and]
  constructor
  · simp [Storage.setRecord, Storage.setOwnerIndex]
  · simp [Storage.setRecord, Storage.setOwnerIndex, filter_bne_idem]

/-- C6, witness: the amended double-removal behavior on a concrete
one-expense state. -/
theorem C6_second_remove_succeeds_witness :
    (((add_expense 0 0 "food" 5 "q" emptyStorage).2).record 0 1).isSome ∧
    (remove_expense 200
        ((remove_expense 100 (add_expense 0 0 "food" 5 "q" emptyStorage).2
            0 1).getD (add_expense 0 0 "food" 5 "q" emptyStorage).2)
        0 1).isSome :=
  ⟨by decide,
   (C6_second_remove_succeeds 100 200
     (add_expense 0 0 "food" 5 "q" emptyStorage).2 0 1 (by decide)).1⟩

/-- C7: `expenses_count(owner)` returns `Counter[owner]`, or 0 when the key
is absent, and a successful `remove_expense` leaves every owner's counter —
and hence `expenses_count` — unchanged: it counts all ever-created ids,
including later-deleted ones. -/
theorem C7_count_survives_remove (ts : Nat) (s : Storage) (caller id : Nat)
    (h : (s.record caller id).isSome) :
    (∀ o, expenses_count ((remove_expense ts s caller id).getD s) o
        = expenses_count s o) ∧
    (∀ o c, s.count o = some c → expenses_count s o = c) ∧
    (∀ o, s.count o = none → expenses_count s o = 0) := by
  refine ⟨fun o => ?_, fun o c hc => ?_, fun o hc => ?_⟩
  · simp [expenses_count, count_remove_expense]
  · simp [expenses_count, hc]
  · simp [expenses_count, hc]

/-- C7, witness: removing the only expense of a concrete owner leaves the
counter at 1. -/
theorem C7_count_survives_remove_witness :
    ((reach [Op.add 5 0 "food" 7 "x"]).record 0 1).isSome ∧
    expenses_count ((remove_expense 50 (reach [Op.add 5 0 "food" 7 "x"])
        0 1).getD (reach [Op.add 5 0 "food" 7 "x"])) 0
      = expenses_count (reach [Op.add 5 0 "food" 7 "x"]) 0 :=
  ⟨by decide,
   (C7_count_survives_remove 50 (reach [Op.add 5 0 "food" 7 "x"]) 0 1
     (by decide)).1 0⟩

/-- C8: `add_expense` has no failure path — for every caller, arguments and
storage state it returns the saturating-bumped counter as the new id — and
when `Counter[caller]` is already `u64::MAX` the stored counter stays
`u64::MAX` (no wrap to 0) and the returned id is `u64::MAX`. -/
theorem C8_add_saturates (ts caller : Nat) (category note : String)
    (amount : Nat) (s : Storage) :
    (add_expense ts caller category amount note s).1
        = satAdd64 (expenses_count s caller) 1 ∧
    (s.count caller = some U64MAX →
      (add_expense ts caller category amount note s).2.count caller
          = some U64MAX ∧
      (add_expense ts caller category amount note s).1 = U64MAX) := by
  refine ⟨rfl, fun hmax => ⟨?_, ?_⟩⟩
  · rw [count_add_expense, if_pos rfl, hmax]
    exact congrArg some (min_eq_right (Nat.le_succ _))
  · rw [add_expense_fst, hmax]
    exact min_eq_right (Nat.le_succ _)

/-- C8, witness: adding to an owner whose counter already sits at
`u64::MAX` keeps the counter at `u64::MAX` and returns `u64::MAX`. -/
theorem C8_add_saturates_witness :
    ({ emptyStorage with
        count := fun o => if o = 0 then some U64MAX else none } :
      Storage).count 0 = some U64MAX ∧
    ((add_expense 7 0 "c" 1 "n"
        { emptyStorage with
          count := fun o => if o = 0 then some U64MAX else none }).2.count 0
        = some U64MAX ∧
      (add_expense 7 0 "c" 1 "n"
        { emptyStorage with
          count := fun o => if o = 0 then some U64MAX else none }).1
        = U64MAX) :=
  ⟨rfl,
   (C8_add_saturates 7 0 "c" "n" 1
     { emptyStorage with
       count := fun o => if o = 0 then some U64MAX else none }).2 rfl⟩

/-- The internal-consistency invariant: every id listed in any owner's
index has a stored record. -/
def IndexedPresent (s : Storage) : Prop :=
  ∀ o id, id ∈ (s.ownerIndex o).getD [] → (s.record o id).isSome

theorem index_add_expense (ts caller : Nat) (category : String) (amount : Nat)
    (note : String) (s : Storage) (o : Nat) :
    (add_expense ts caller category amount note s).2.ownerIndex o
      = if o = caller
        then some ((s.ownerIndex caller).getD []
          ++ [satAdd64 ((s.count caller).getD 0) 1])
        else s.ownerIndex o := by
  simp [add_expense, Storage.setCount, Storage.setRecord, Storage.setOwnerIndex]

theorem record_add_expense (ts caller : Nat) (category : String)
    (amount : Nat) (note : String) (s : Storage) (o j : Nat) :
    (add_expense ts caller category amount note s).2.record o j
      = if o = caller ∧ j = satAdd64 ((s.count caller).getD 0) 1
        then some
          { id := satAdd64 ((s.count caller).getD 0) 1, owner := caller
            ts := ts, day := ts / 86400, week := ts / 604800
            category := category, amount := amount, note := note }
        else s.record o j := by
  simp [add_expense, Storage.setCount, Storage.setRecord, Storage.setOwnerIndex]

theorem record_remove_expense (ts : Nat) (s : Storage) (caller id o j : Nat) :
    ((remove_expense ts s caller id).getD s).record o j
      = if (s.record caller id).isSome ∧ o = caller ∧ j = id
        then some (tombstone ts caller id)
        else s.record o j := by
  rcases hr : s.record caller id with _ | e
  · unfold remove_expense
    rw [hr]
    simp
  · rw [remove_expense_eq ts s caller id e hr]
    simp [Storage.setRecord, Storage.setOwnerIndex]

theorem index_remove_expense (ts : Nat) (s : Storage) (caller id o : Nat) :
    ((remove_expense ts s caller id).getD s).ownerIndex o
      = if (s.record caller id).isSome ∧ o = caller
        then some (((s.ownerIndex caller).getD []).filter
          (fun nid => nid != id))
        else s.ownerIndex o := by
  rcases hr : s.record caller id with _ | e
  · unfold remove_expense
    rw [hr]
    simp
  · rw [remove_expense_eq ts s caller id e hr]
    simp [Storage.setRecord, Storage.setOwnerIndex]

theorem indexedPresent_empty : IndexedPresent emptyStorage := by
  intro o id hmem
  simp [emptyStorage] at hmem

theorem indexedPresent_step (s : Storage) (op : Op)
    (h : IndexedPresent s) : IndexedPresent (step s op) := by
  cases op with
  | add ts caller category amount note =>
    intro o id hmem
    rw [step, record_add_expense]
    rw [step, index_add_expense] at hmem
    by_cases ho : o = caller
    · rw [if_pos ho, Option.getD_some] at hmem
      rcases List.mem_append.mp hmem with hold | hnew
      · split
        · simp
        · exact ho ▸ h caller id (ho ▸ hold)
      · rw [if_pos ⟨ho, List.mem_singleton.mp hnew⟩]
        simp
    · rw [if_neg ho] at hmem
      split
      · simp
      · exact h o id hmem
  | remove ts caller id =>
    intro o j hmem
    show (((remove_expense ts s caller id).getD s).record o j).isSome
    rw [record_remove_expense]
    have hmem' : j ∈ ((((remove_expense ts s caller id).getD s).ownerIndex
        o).getD []) := hmem
    rw [index_remove_expense] at hmem'
    split
    · simp
    · rcases hins : s.record caller id with _ | e
      · rw [hins] at hmem'
        simp at hmem'
        exact h o j hmem'
      · by_cases ho : o = caller
        · rw [if_pos ⟨by simp [hins], ho⟩, Option.getD_some] at hmem'
          exact h o j (ho ▸ List.mem_of_mem_filter hmem')
        · rw [if_neg (fun hh => ho hh.2)] at hmem'
          exact h o j hmem'
  | view owner id => exact h
  | listIds owner => exact h
  | countOf owner => exact h
  | daily ts owner => exact h
  | weekly ts owner => exact h

theorem indexedPresent_foldl (ops : List Op) :
    ∀ s : Storage, IndexedPresent s → IndexedPresent (ops.foldl step s) := by
  induction ops with
  | nil => intro s h; exact h
  | cons op rest ih =>
    intro s h
    exact ih (step s op) (indexedPresent_step s op h)

theorem indexedPresent_reach (ops : List Op) : IndexedPresent (reach ops) :=
  indexedPresent_foldl ops emptyStorage indexedPresent_empty

theorem sumLoop_isSome (s : Storage) (owner bucket : Nat)
    (proj : Expense → Nat) :
    ∀ (ids : List Nat) (acc : Nat),
      (∀ id ∈ ids, (s.record owner id).isSome) →
      (sumLoop s owner bucket proj ids acc).isSome := by
  intro ids
  induction ids with
  | nil => intro acc _; simp [sumLoop]
  | cons id rest ih =>
    intro acc hall
    obtain ⟨e, he⟩ := Option.isSome_iff_exists.mp (hall id (by simp))
    simp only [sumLoop, he]
    exact ih _ (fun i hi => hall i (List.mem_cons_of_mem _ hi))

/-- C9: in every storage state reachable from empty storage by public
operations, every id in any `OwnerIndex[owner]` has a stored
`Record[owner,id]`, and both `daily_total` and `weekly_total` succeed at
every query time — their "expense not found" failure branch (and, in the
list embedding, any out-of-bounds index access) is unreachable. -/
theorem C9_totals_never_fail (ops : List Op) (ts o : Nat) :
    (∀ id ∈ ((reach ops).ownerIndex o).getD [],
      ((reach ops).record o id).isSome) ∧
    (daily_total ts (reach ops) o).isSome ∧
    (weekly_total ts (reach ops) o).isSome := by
  have hinv : ∀ id ∈ ((reach ops).ownerIndex o).getD [],
      ((reach ops).record o id).isSome :=
    fun id hid => indexedPresent_reach ops o id hid
  exact ⟨hinv, sumLoop_isSome _ _ _ _ _ 0 hinv, sumLoop_isSome _ _ _ _ _ 0 hinv⟩

/-- Modelled from the spec: the lifecycle states of an auction listing
(`Open → Locked → Completed`, `Open → Cancelled`).  The AuctionLedger
contract source is not present under src/; only the spec describes it. -/
inductive LStatus where
  | Open
  | Locked
  | Completed
  | Cancelled
deriving DecidableEq, Repr

/-- Modelled from the spec: the error kinds of the auction operations. -/
inductive AuctionError where
  | InvalidArgument
  | NotFound
  | InvalidState
  | BidTooLow
  | NoValidBid
  | Unauthorized
  | AlreadyExists
deriving DecidableEq, Repr

/-- Modelled from the spec: a `Listing` (one per caller-chosen listing id);
`best_bid` is 0 while no bid has been accepted. -/
structure Listing where
  seller : Nat
  assetDesc : String
  askPrice : Int
  status : LStatus
  bestBid : Int
  bestBidder : Option Nat
deriving DecidableEq, Repr

/-- Modelled from the spec: the listing produced by a successful
`create_listing` — `status = Open`, `best_bid = 0`, `best_bidder = None`
(the `ask_price > 0` and duplicate-key checks happen before this value is
built). -/
def initListing (seller : Nat) (assetDesc : String) (askPrice : Int) :
    Listing :=
  { seller := seller, assetDesc := assetDesc, askPrice := askPrice
    status := LStatus.Open, bestBid := 0, bestBidder := none }

/-- Modelled from the spec: `place_bid(listing_id, bidder, amount)` applied
to the (optionally present) stored listing.  Check order as specified:
`InvalidArgument` if `amount <= 0`; `NotFound` if the listing is absent;
`InvalidState` if `status != Open`; `BidTooLow` if
`amount < ask_price OR amount <= best_bid`; on success `best_bid := amount`
and `best_bidder := Some(bidder)` (the bid-history append carries no
information the claims need and is omitted). -/
def place_bid (l : Option Listing) (bidder : Nat) (amount : Int) :
    Except AuctionError Listing :=
  if amount ≤ 0 then Except.error AuctionError.InvalidArgument
  else
    match l with
    | none => Except.error AuctionError.NotFound
    | some lst =>
      if lst.status ≠ LStatus.Open then Except.error AuctionError.InvalidState
      else if amount < lst.askPrice ∨ amount ≤ lst.bestBid then
        Except.error AuctionError.BidTooLow
      else Except.ok { lst with bestBid := amount, bestBidder := some bidder }

/-- C10, counterexample: on a fresh `Open` listing with `ask_price = 100`
and `best_bid = 0`, a bid of 0 — which is both below `ask_price` and equal
to `best_bid` — fails with `InvalidArgument`, not `BidTooLow`: the
non-positive-amount check runs first, so the claim's "whenever" and
"always" are wrong for non-positive amounts. -/
theorem C10_counterexample :
    place_bid (some (initListing 1 "d" 100)) 2 0
        = Except.error AuctionError.InvalidArgument ∧
    Except.error (ε := AuctionError) (α := Listing) AuctionError.InvalidArgument
        ≠ Except.error AuctionError.BidTooLow := by
  refine ⟨rfl, ?_⟩
  intro hEq
  exact absurd (Except.error.inj hEq) (by decide)

/-- C10 (amended): for an existing listing in state `Open` and a positive
bid amount, `place_bid` fails with `BidTooLow` exactly when
`amount < ask_price` or `amount <= best_bid`; every accepted bid strictly
exceeds the previous `best_bid` and becomes the new one — so across any
sequence of accepted bids on one listing the amounts, and hence `best_bid`,
are strictly increasing — and a positive bid exactly equal to the current
`best_bid` always fails with `BidTooLow`. -/
theorem C10_bid_monotone (l : Listing) (bidder : Nat) (amount : Int)
    (hpos : 0 < amount) (hopen : l.status = LStatus.Open) :
    ((amount < l.askPrice ∨ amount ≤ l.bestBid) ↔
      place_bid (some l) bidder amount
        = Except.error AuctionError.BidTooLow) ∧
    (∀ l', place_bid (some l) bidder amount = Except.ok l' →
      l.bestBid < amount ∧ l'.bestBid = amount) ∧
    (amount = l.bestBid →
      place_bid (some l) bidder amount
        = Except.error AuctionError.BidTooLow) := by
  have hnp : ¬ amount ≤ 0 := not_le.mpr hpos
  have hno : ¬ l.status ≠ LStatus.Open := fun hh => hh hopen
  refine ⟨⟨fun hlow => ?_, fun hbid => ?_⟩, fun l' hok => ?_, fun heq => ?_⟩
  · simp only [place_bid, if_neg hnp, if_neg hno, if_pos hlow]
  · by_contra hlow
    simp only [place_bid, if_neg hnp, if_neg hno, if_neg hlow] at hbid
    exact Except.noConfusion hbid
  · by_cases hlow : amount < l.askPrice ∨ amount ≤ l.bestBid
    · simp only [place_bid, if_neg hnp, if_neg hno, if_pos hlow] at hok
      exact Except.noConfusion hok
    · simp only [place_bid, if_neg hnp, if_neg hno, if_neg hlow] at hok
      refine ⟨by omega, ?_⟩
      rw [← Except.ok.inj hok]
  · simp only [place_bid, if_neg hnp, if_neg hno,
      if_pos (Or.inr (le_of_eq heq))]

/-- An `Open` listing with `ask_price = 100` on which a bid of 100 has been
accepted — used as the concrete input of the C10 witness. -/
def sampleListing : Listing :=
  { seller := 1, assetDesc := "d", askPrice := 100, status := LStatus.Open
    bestBid := 100, bestBidder := some 3 }

/-- C10, witness: on an `Open` listing with `ask_price = 100` and
`best_bid = 100` already accepted, a second bid of exactly 100 fails with
`BidTooLow`. -/
theorem C10_bid_monotone_witness :
    (0 : Int) < 100 ∧ sampleListing.status = LStatus.Open ∧
    place_bid (some sampleListing) 2 100
      = Except.error AuctionError.BidTooLow :=
  ⟨by decide, rfl, (C10_bid_monotone sampleListing 2 100 (by decide) rfl).2.2 rfl⟩

end RustyWallet
